import Mathlib

/-!
Shallow embedding of the ScaleMart flash-sale core
(src/backend/server.py, src/backend/additional_endpoints.py,
src/backend/server_enhanced.py).

Modelling conventions:
* Redis integer counters are `Int` (DECRBY/INCRBY may drive them negative;
  a missing key reads as 0, exactly Redis semantics).
* Time is an absolute `Nat` timestamp in seconds; the 5-minute cancellation
  window of `cancel_order` is 300 seconds, compared strictly
  (`time_diff > timedelta(minutes=5)`).
* MongoDB's `orders` collection is a list of order records;
  `update_one({"id": ...}, {"$set": ...})` is a map guarded by the id.
  Order ids (uuid4 in the code) are `Nat`; the caller supplies the fresh id.
* Monetary fields (`price`, `total_price`) use floating point in the code and
  are mentioned by none of the verified properties; they are omitted from the
  order record, which keeps exactly the fields the flash-buy, cancellation and
  confirmation logic reads or writes.
* The sequential embedding realises the "settled" view the spec reasons
  about: every Redis/Mongo primitive is atomic, and compound operations are
  laid out in the source's program order.
-/

namespace ScaleMart

/-- Order status values used by the backend
(`status: str  # pending, processing, confirmed, failed` plus the
`cancelled` value written by `cancel_order`). -/
inductive Status where
  | pending
  | confirmed
  | cancelled
  | failed
  deriving DecidableEq, Repr

/-- One document of the `orders` collection: the fields of `server.py`'s
`Order` model that the flash-buy / cancel / confirmation logic reads or
writes (monetary fields omitted, see module comment).  `cancelled_at` is the
extra field `cancel_order` sets on cancellation. -/
structure OrderRec where
  id : Nat
  user_id : Nat
  product_id : Nat
  quantity : Int
  status : Status
  created_at : Nat
  updated_at : Nat
  cancelled_at : Option Nat
  deriving DecidableEq, Repr

/-- The Redis stock keys `stock:{product_id}`: an association list from
product id to counter value. -/
abbrev Stocks := List (Nat × Int)

/-- `GET stock:{pid}` read as an integer: a missing key reads as 0
(Redis DECRBY/INCRBY initialise a missing key to 0). -/
def getStock (s : Stocks) (pid : Nat) : Int :=
  match s.lookup pid with
  | some v => v
  | none => 0

/-- Store value `v` under `stock:{pid}`: replace the binding if the key
exists, create it otherwise. -/
def setStock (s : Stocks) (pid : Nat) (v : Int) : Stocks :=
  match s with
  | [] => [(pid, v)]
  | (k, w) :: rest =>
      if k = pid then (pid, v) :: rest else (k, w) :: setStock rest pid v

/-- The decrement-then-check reservation step of `flash_buy`
(server.py lines 349-354): `DECRBY stock qty`, and if the result is
negative, a compensating `INCRBY stock qty` plus an out-of-stock failure.
Returns whether the reservation succeeded together with the settled counter
value. -/
def flashDecr (stock : Int) (qty : Int) : Bool × Int :=
  let newStock := stock - qty
  if newStock < 0 then (false, newStock + qty) else (true, newStock)

/-- Quantity validation performed by `server.py`'s `FlashBuyRequest`
(lines 91-93): the field is declared `quantity: int = 1` with no bounds, so
every integer is accepted. -/
def flashBuyQtyValid (_q : Int) : Bool := true

/-- Quantity validation performed by `server_enhanced.py`'s
`FlashBuyRequest` (lines 208-210):
`quantity: int = Field(default=1, ge=1, le=10)`. -/
def flashBuyQtyValidEnhanced (q : Int) : Bool := 1 ≤ q && q ≤ 10

/-- State of one Redis rate-limit key `rate_limit:{user}:{action}`:
`none` when the key is absent, otherwise `some (count, expiry)` where
`expiry` is the absolute time at which the key disappears. -/
abbrev RateKey := Option (Nat × Nat)

/-- `check_rate_limit` (server.py lines 157-167, identical logic in
server_enhanced.py lines 321-335): `GET` the counter (a key whose expiry has
passed reads as absent), raise HTTP 429 when the count is at or above the
limit; otherwise run `INCR key; EXPIRE key window` in a pipeline — note the
`EXPIRE` runs on every admitted request, not only the first of a window.
Returns (admitted?, new key state). -/
def check_rate_limit (limit window : Nat) (s : RateKey) (now : Nat) :
    Bool × RateKey :=
  let live : RateKey :=
    match s with
    | some (c, e) => if e ≤ now then none else some (c, e)
    | none => none
  match live with
  | some (c, e) =>
      if limit ≤ c then (false, some (c, e))
      else (true, some (c + 1, now + window))
  | none => (true, some (1, now + window))

/-- Run `check_rate_limit` over a list of request timestamps, collecting the
admit/deny verdicts and the final key state. -/
def rlRun (limit window : Nat) (s : RateKey) : List Nat → List Bool × RateKey
  | [] => ([], s)
  | t :: ts =>
      let r := check_rate_limit limit window s t
      let rest := rlRun limit window r.2 ts
      (r.1 :: rest.1, rest.2)

/-- The shared backend state the flash-sale endpoints touch: the caller's
`rate_limit:{user}:flash_buy` key, the Redis product catalog (the set of ids
with a `product:{id}` entry), the Redis stock counters and the Mongo
`orders` collection. -/
structure SrvState where
  rate : RateKey
  catalog : List Nat
  stocks : Stocks
  orders : List OrderRec
  deriving DecidableEq, Repr

/-- Failure outcomes of `flash_buy`: HTTP 429 from the rate limiter,
HTTP 404 for an unknown product, HTTP 400 "Out of stock!". -/
inductive BuyErr where
  | rateLimited
  | productNotFound
  | outOfStock
  deriving DecidableEq, Repr

/-- `flash_buy` (server.py lines 328-387), in program order:
1. `check_rate_limit(user, "flash_buy", limit, window)` — raises 429 before
   any increment when denied;
2. `GET product:{pid}` — raises 404 when absent;
3. `DECRBY stock:{pid} qty`; if the result is negative, compensating
   `INCRBY` and a 400 out-of-stock failure;
4. otherwise insert a new `pending` order and return its id.
`newOrderId` stands for the generated uuid4; `now` stamps
`created_at`/`updated_at`.  Returns the endpoint outcome and the post-call
state. -/
def flash_buy (limit window : Nat) (st : SrvState) (now : Nat)
    (userId : Nat) (pid : Nat) (qty : Int) (newOrderId : Nat) :
    Except BuyErr Nat × SrvState :=
  let rl := check_rate_limit limit window st.rate now
  if rl.1 = false then (.error .rateLimited, st)
  else
    let st1 : SrvState := { st with rate := rl.2 }
    if st1.catalog.contains pid = false then (.error .productNotFound, st1)
    else
      let pre := getStock st1.stocks pid
      let r := flashDecr pre qty
      if r.1 = false then
        (.error .outOfStock, { st1 with stocks := setStock st1.stocks pid r.2 })
      else
        let order : OrderRec :=
          { id := newOrderId, user_id := userId, product_id := pid,
            quantity := qty, status := .pending,
            created_at := now, updated_at := now, cancelled_at := none }
        (.ok newOrderId,
          { st1 with stocks := setStock st1.stocks pid r.2,
                     orders := st1.orders ++ [order] })

/-- Failure outcomes of `cancel_order`: HTTP 404 (unknown order), 403 (not
the owner), 400 for a non-pending status, 400 for the expired 5-minute
window. -/
inductive CancelErr where
  | notFound
  | forbidden
  | invalidState
  | windowExpired
  deriving DecidableEq, Repr

/-- `cancel_order` (additional_endpoints.py lines 102-161), in program
order: find the order by id (404 when absent); check ownership (403); check
`status == 'pending'` (400); check
`now - created_at > timedelta(minutes=5)` i.e. strictly more than 300
seconds (400); then `INCRBY stock:{product_id} quantity` and set
`status = 'cancelled'` (with `updated_at`/`cancelled_at`) on the order.
Returns the endpoint outcome (the refunded quantity on success) and the
post-call state; every failure raises before any mutation, so the failure
post-state is the input state. -/
def cancel_order (st : SrvState) (orderId requester now : Nat) :
    Except CancelErr Int × SrvState :=
  match st.orders.find? (fun o => o.id == orderId) with
  | none => (.error .notFound, st)
  | some o =>
      if (o.user_id == requester) = false then (.error .forbidden, st)
      else if (o.status == .pending) = false then (.error .invalidState, st)
      else if o.created_at + 300 < now then (.error .windowExpired, st)
      else
        let stocks' :=
          setStock st.stocks o.product_id
            (getStock st.stocks o.product_id + o.quantity)
        let orders' := st.orders.map (fun p =>
          if p.id == orderId then
            { p with status := .cancelled, updated_at := now,
                     cancelled_at := some now }
          else p)
        (.ok o.quantity, { st with stocks := stocks', orders := orders' })

/-- `process_order_task` (server.py lines 170-191): the Celery confirmation
worker. After the simulated processing delay it runs
`update_one({"id": id}, {"$set": {"status": "confirmed", "updated_at": now}})`
— the filter is by id only, with no status guard, so the write applies
whatever the order's current status is. -/
def process_order_task (st : SrvState) (orderId now : Nat) : SrvState :=
  { st with orders := st.orders.map (fun p =>
      if p.id == orderId then
        { p with status := .confirmed, updated_at := now }
      else p) }

/-- `process_order_task` of server_enhanced.py (lines 341-362): same
id-only filter, writing `{"status": "confirmed", "can_cancel": False}` on
the order's (status, can_cancel) pair. -/
def process_order_enhanced (_p : Status × Bool) : Status × Bool :=
  (.confirmed, false)

/-! ### Helper lemmas about the store primitives -/

theorem getStock_setStock (s : Stocks) (pid : Nat) (v : Int) :
    getStock (setStock s pid v) pid = v := by
  induction s with
  | nil => simp [setStock, getStock, List.lookup]
  | cons kv rest ih =>
      obtain ⟨k, w⟩ := kv
      by_cases h : k = pid
      · simp [setStock, getStock, List.lookup, h]
      · have hb : (pid == k) = false := by
          simp [Ne.symm h]
        simp [setStock, getStock, List.lookup, h, hb] at ih ⊢
        exact ih

theorem find?_map_of_id_eq (l : List OrderRec) (oid : Nat)
    (f : OrderRec → OrderRec) (hf : ∀ o, (f o).id = o.id) :
    (l.map f).find? (fun q => q.id == oid)
      = (l.find? (fun q => q.id == oid)).map f := by
  induction l with
  | nil => simp
  | cons a rest ih =>
      by_cases h : (a.id == oid) = true
      · simp [List.find?_cons, hf, h]
      · simp [List.find?_cons, hf, h, ih]

/-! ### Sequences of purchases and cancellations against one product

The run model for the §8 stock invariant: a sequence of flash-buy and
cancel calls, applied sequentially (the settled view), against a single
product.  A buy's fresh uuid4 is modelled by handing `flash_buy` an id never
used before — the run supplies the current length of the orders
collection. -/

/-- One client operation of a run: a flash-buy (by some user, of some
quantity, at some time) or a cancellation attempt (of some order id, by
some requester, at some time). -/
inductive Op where
  | buy (userId : Nat) (qty : Int) (now : Nat)
  | cancel (orderId requester now : Nat)

/-- Apply one operation to the backend state, keeping the post-call state
whatever the outcome (failed calls leave their failure state). -/
def applyOp (limit window pid : Nat) (st : SrvState) : Op → SrvState
  | .buy u q t => (flash_buy limit window st t u pid q st.orders.length).2
  | .cancel oid r t => (cancel_order st oid r t).2

/-- Apply a whole sequence of operations, left to right. -/
def runOps (limit window pid : Nat) (st : SrvState) : List Op → SrvState
  | [] => st
  | op :: ops => runOps limit window pid (applyOp limit window pid st op) ops

/-- Total quantity reserved by orders whose status is `pending` or
`confirmed` — the "active" reservations of the §8 invariant. -/
def activeQty : List OrderRec → Int
  | [] => 0
  | o :: rest =>
      (if o.status = .pending ∨ o.status = .confirmed then o.quantity else 0)
        + activeQty rest

/-- A buy operation is well formed when its quantity is at least 1 — the
bound `server.py` fails to enforce (see C3); cancels carry no quantity. -/
def opQtyOK : Op → Prop
  | .buy _ q _ => 1 ≤ q
  | .cancel _ _ _ => True

theorem activeQty_append (l₁ l₂ : List OrderRec) :
    activeQty (l₁ ++ l₂) = activeQty l₁ + activeQty l₂ := by
  induction l₁ with
  | nil => simp [activeQty]
  | cons a rest ih =>
      simp [activeQty, ih]
      ring

/-- The cancellation write (the id-guarded map) leaves a list holding no
matching id unchanged. -/
theorem map_cancel_of_not_mem (l : List OrderRec) (oid now : Nat)
    (h : ∀ p ∈ l, p.id ≠ oid) :
    l.map (fun p => if p.id == oid then
        { p with status := Status.cancelled, updated_at := now,
                 cancelled_at := some now }
      else p) = l := by
  refine (List.map_congr_left ?_).trans (List.map_id l)
  intro a ha
  have hne : (a.id == oid) = false := by simpa using h a ha
  simp [hne]

/-- Effect of the cancellation write on the active total: when ids are
unique and the matched order is pending, exactly its quantity leaves the
active total. -/
theorem activeQty_cancel (l : List OrderRec) (oid : Nat) (o : OrderRec)
    (now : Nat)
    (hfind : l.find? (fun q => q.id == oid) = some o)
    (hpend : o.status = .pending)
    (hnd : (l.map OrderRec.id).Nodup) :
    activeQty (l.map (fun p => if p.id == oid then
        { p with status := Status.cancelled, updated_at := now,
                 cancelled_at := some now }
      else p)) = activeQty l - o.quantity := by
  induction l with
  | nil => simp at hfind
  | cons a rest ih =>
      rw [List.map_cons] at hnd
      have hnd1 : a.id ∉ rest.map OrderRec.id := (List.nodup_cons.mp hnd).1
      have hnd2 : (rest.map OrderRec.id).Nodup := (List.nodup_cons.mp hnd).2
      by_cases ha : (a.id == oid) = true
      · have hao : a.id = oid := by simpa using ha
        have hoa : o = a := by
          simp only [List.find?_cons, ha, if_true] at hfind
          exact (Option.some.inj hfind).symm
        have hrest : ∀ p ∈ rest, p.id ≠ oid := by
          intro p hp hpe
          exact hnd1 (hao ▸ hpe ▸ List.mem_map_of_mem OrderRec.id hp)
        rw [List.map_cons, map_cancel_of_not_mem rest oid now hrest]
        subst hoa
        simp [activeQty, ha, hpend]
      · have hfind' : rest.find? (fun q => q.id == oid) = some o := by
          have ha' : (a.id == oid) = false := by simpa using ha
          simpa only [List.find?_cons, ha', if_false] using hfind
        have hfa : (if (a.id == oid) = true then
            { a with status := Status.cancelled, updated_at := now,
                     cancelled_at := some now }
          else a) = a := by
          rw [if_neg]
          simpa using ha
        rw [List.map_cons]
        simp only [activeQty, hfa, ih hfind' hnd2]
        ring

/-- Active totals are non-negative once every stored quantity is ≥ 1. -/
theorem activeQty_nonneg (l : List OrderRec) (h : ∀ o ∈ l, 1 ≤ o.quantity) :
    0 ≤ activeQty l := by
  induction l with
  | nil => simp [activeQty]
  | cons a rest ih =>
      have ha : 1 ≤ a.quantity := h a (by simp)
      have hr : 0 ≤ activeQty rest := ih fun o ho => h o (by simp [ho])
      by_cases hs : a.status = Status.pending ∨ a.status = Status.confirmed
      · simp only [activeQty, hs, if_pos]
        omega
      · simp only [activeQty, hs, if_neg, not_false_eq_true]
        omega

/-- The inductive invariant of a run against product `pid` seeded with `S`
units: counter plus active reservations account exactly for `S`, the
counter is non-negative, every stored order has quantity ≥ 1 and targets
`pid`, order ids are pairwise distinct, and every id is below the
collection's length (so the length is always a fresh id). -/
structure StockInv (S : Int) (pid : Nat) (st : SrvState) : Prop where
  hsum : getStock st.stocks pid + activeQty st.orders = S
  hstock : 0 ≤ getStock st.stocks pid
  hq : ∀ o ∈ st.orders, 1 ≤ o.quantity
  hpid : ∀ o ∈ st.orders, o.product_id = pid
  hnd : (st.orders.map OrderRec.id).Nodup
  hfresh : ∀ o ∈ st.orders, o.id < st.orders.length

/-- A flash-buy of quantity ≥ 1 with a fresh order id preserves the
invariant, whichever way it ends (denied, unknown product, out of stock, or
success). -/
theorem StockInv_buy (limit window pid : Nat) (S : Int) (st : SrvState)
    (u : Nat) (q : Int) (t : Nat) (hq1 : 1 ≤ q) (hinv : StockInv S pid st) :
    StockInv S pid (flash_buy limit window st t u pid q st.orders.length).2 := by
  by_cases h1 : (check_rate_limit limit window st.rate t).1 = false
  · have hstate : (flash_buy limit window st t u pid q st.orders.length).2
        = st := by
      simp [flash_buy, h1]
    rw [hstate]
    exact hinv
  · by_cases h2 : pid ∈ st.catalog
    · by_cases h3 : getStock st.stocks pid - q < 0
      · have hstate : (flash_buy limit window st t u pid q st.orders.length).2
            = { st with rate := (check_rate_limit limit window st.rate t).2,
                        stocks := setStock st.stocks pid
                          (getStock st.stocks pid - q + q) } := by
          simp [flash_buy, h1, h2, flashDecr, h3]
        have hget : getStock (setStock st.stocks pid
            (getStock st.stocks pid - q + q)) pid
              = getStock st.stocks pid := by
          rw [getStock_setStock]
          ring
        rw [hstate]
        exact ⟨by simp only [hget]; exact hinv.hsum,
               by simp only [hget]; exact hinv.hstock,
               hinv.hq, hinv.hpid, hinv.hnd, hinv.hfresh⟩
      · have hstate : (flash_buy limit window st t u pid q st.orders.length).2
            = { st with rate := (check_rate_limit limit window st.rate t).2,
                        stocks := setStock st.stocks pid
                          (getStock st.stocks pid - q),
                        orders := st.orders ++
                          [⟨st.orders.length, u, pid, q, .pending, t, t,
                            none⟩] } := by
          simp [flash_buy, h1, h2, flashDecr, h3]
        have hget : getStock (setStock st.stocks pid
            (getStock st.stocks pid - q)) pid
              = getStock st.stocks pid - q := getStock_setStock _ _ _
        rw [hstate]
        refine ⟨?_, ?_, ?_, ?_, ?_, ?_⟩
        · have hsum := hinv.hsum
          simp [hget, activeQty_append, activeQty]
          omega
        · show 0 ≤ getStock (setStock st.stocks pid
            (getStock st.stocks pid - q)) pid
          rw [hget]
          omega
        · intro o ho
          rcases List.mem_append.mp ho with h | h
          · exact hinv.hq o h
          · simp at h
            subst h
            exact hq1
        · intro o ho
          rcases List.mem_append.mp ho with h | h
          · exact hinv.hpid o h
          · simp at h
            subst h
            rfl
        · have hnotin : (st.orders.length : Nat) ∉
              st.orders.map OrderRec.id := by
            intro hmem
            rcases List.mem_map.mp hmem with ⟨o, ho, hid⟩
            exact absurd hid (Nat.ne_of_lt (hinv.hfresh o ho))
          simp [List.map_append, List.nodup_append, hinv.hnd, hnotin,
            List.disjoint_singleton]
        · intro o ho
          rcases List.mem_append.mp ho with h | h
          · have := hinv.hfresh o h
            simp only [List.length_append, List.length_singleton]
            omega
          · simp at h
            subst h
            simp
    · have hstate : (flash_buy limit window st t u pid q st.orders.length).2
          = { st with rate := (check_rate_limit limit window st.rate t).2 } := by
        simp [flash_buy, h1, h2]
      rw [hstate]
      exact ⟨hinv.hsum, hinv.hstock, hinv.hq, hinv.hpid, hinv.hnd,
        hinv.hfresh⟩

/-- A cancellation attempt preserves the invariant, whichever way it ends
(not found, forbidden, invalid state, window expired, or success). -/
theorem StockInv_cancel (pid : Nat) (S : Int) (st : SrvState)
    (oid r t : Nat) (hinv : StockInv S pid st) :
    StockInv S pid (cancel_order st oid r t).2 := by
  cases hfind : st.orders.find? (fun q => q.id == oid) with
  | none =>
      have hstate : (cancel_order st oid r t).2 = st := by
        simp [cancel_order, hfind]
      rw [hstate]
      exact hinv
  | some o =>
      have hmem : o ∈ st.orders := List.mem_of_find?_eq_some hfind
      by_cases hown : (o.user_id == r) = true
      · by_cases hpst : (o.status == Status.pending) = true
        · by_cases hwin : o.created_at + 300 < t
          · have hstate : (cancel_order st oid r t).2 = st := by
              simp [cancel_order, hfind, hown, hpst, hwin]
            rw [hstate]
            exact hinv
          · have hopid : o.product_id = pid := hinv.hpid o hmem
            have hpend : o.status = Status.pending := by simpa using hpst
            have hstate : (cancel_order st oid r t).2
                = { st with
                    stocks := setStock st.stocks pid
                      (getStock st.stocks pid + o.quantity),
                    orders := st.orders.map (fun p =>
                      if p.id == oid then
                        { p with status := Status.cancelled,
                                 updated_at := t,
                                 cancelled_at := some t }
                      else p) } := by
              simp [cancel_order, hfind, hown, hpst, hwin, hopid]
            have hget : getStock (setStock st.stocks pid
                (getStock st.stocks pid + o.quantity)) pid
                  = getStock st.stocks pid + o.quantity :=
              getStock_setStock _ _ _
            have hact := activeQty_cancel st.orders oid o t hfind hpend hinv.hnd
            have hqo : 1 ≤ o.quantity := hinv.hq o hmem
            have hidpres : ∀ p : OrderRec,
                ((fun p => if p.id == oid then
                    { p with status := Status.cancelled, updated_at := t,
                             cancelled_at := some t }
                  else p) p).id = p.id := by
              intro p
              by_cases hp : (p.id == oid) = true <;> simp [hp]
            rw [hstate]
            refine ⟨?_, ?_, ?_, ?_, ?_, ?_⟩
            · have hsum := hinv.hsum
              simp only [hget, hact]
              omega
            · have := hinv.hstock
              simp only [hget]
              omega
            · intro p hp
              rcases List.mem_map.mp hp with ⟨a, ha, rfl⟩
              have := hinv.hq a ha
              by_cases hpc : (a.id == oid) = true <;> simp [hpc, this]
            · intro p hp
              rcases List.mem_map.mp hp with ⟨a, ha, rfl⟩
              have := hinv.hpid a ha
              by_cases hpc : (a.id == oid) = true <;> simp [hpc, this]
            · rw [List.map_map]
              have : (OrderRec.id ∘ fun p => if p.id == oid then
                  { p with status := Status.cancelled, updated_at := t,
                           cancelled_at := some t }
                else p) = OrderRec.id := by
                funext p
                exact hidpres p
              rw [this]
              exact hinv.hnd
            · intro p hp
              rcases List.mem_map.mp hp with ⟨a, ha, rfl⟩
              have := hinv.hfresh a ha
              rw [List.length_map, hidpres a]
              exact this
        · have hstate : (cancel_order st oid r t).2 = st := by
            simp [cancel_order, hfind, hown, hpst]
          rw [hstate]
          exact hinv
      · have hstate : (cancel_order st oid r t).2 = st := by
          simp [cancel_order, hfind, hown]
        rw [hstate]
        exact hinv

/-- Every run of well-formed operations preserves the invariant. -/
theorem runOps_inv (limit window pid : Nat) (S : Int) (ops : List Op)
    (hops : ∀ op ∈ ops, opQtyOK op) (st : SrvState)
    (hinv : StockInv S pid st) :
    StockInv S pid (runOps limit window pid st ops) := by
  induction ops generalizing st with
  | nil => exact hinv
  | cons op rest ih =>
      have hstep : StockInv S pid (applyOp limit window pid st op) := by
        cases op with
        | buy u q t =>
            exact StockInv_buy limit window pid S st u q t
              (hops (Op.buy u q t) (by simp)) hinv
        | cancel oid r t =>
            exact StockInv_cancel pid S st oid r t hinv
      exact ih (fun o ho => hops o (by simp [ho])) _ hstep

/-- The §8 stock invariant, for validated quantities: over every sequence
of flash-buys and cancellation attempts against a product seeded with
`S ≥ 0` units, as long as each buy's quantity is at least 1 (the bound the
spec's data model demands and server_enhanced.py's request model enforces),
the settled counter stays within [0, S] and the total quantity reserved by
pending/confirmed orders never exceeds S.  Together with the C1
counter-evidence this isolates server.py's missing quantity validation as
the only obstruction to the invariant. -/
theorem stock_invariant_for_valid_quantities (limit window pid : Nat)
    (S : Int) (hS : 0 ≤ S) (ops : List Op)
    (hops : ∀ op ∈ ops, opQtyOK op) :
    0 ≤ getStock
        (runOps limit window pid ⟨none, [pid], [(pid, S)], []⟩ ops).stocks
        pid ∧
    getStock
        (runOps limit window pid ⟨none, [pid], [(pid, S)], []⟩ ops).stocks
        pid ≤ S ∧
    activeQty
        (runOps limit window pid ⟨none, [pid], [(pid, S)], []⟩ ops).orders
      ≤ S := by
  have h0 : StockInv S pid ⟨none, [pid], [(pid, S)], []⟩ := by
    refine ⟨?_, ?_, ?_, ?_, ?_, ?_⟩ <;>
      simp [getStock, List.lookup, activeQty, hS]
  have h := runOps_inv limit window pid S ops hops _ h0
  have hq0 : 0 ≤ activeQty
      (runOps limit window pid ⟨none, [pid], [(pid, S)], []⟩ ops).orders :=
    activeQty_nonneg _ h.hq
  have hsum := h.hsum
  have hstock := h.hstock
  exact ⟨hstock, by omega, by omega⟩

/-! ### Step lemmas for the rate limiter -/

theorem check_rate_limit_fresh (L w t : Nat) :
    check_rate_limit L w none t = (true, some (1, t + w)) := rfl

theorem check_rate_limit_live_admit (L w c e t : Nat)
    (hlive : ¬ e ≤ t) (hc : ¬ L ≤ c) :
    check_rate_limit L w (some (c, e)) t = (true, some (c + 1, t + w)) := by
  simp [check_rate_limit, hlive, hc]

theorem check_rate_limit_live_deny (L w c e t : Nat)
    (hlive : ¬ e ≤ t) (hc : L ≤ c) :
    check_rate_limit L w (some (c, e)) t = (false, some (c, e)) := by
  simp [check_rate_limit, hlive, hc]

theorem check_rate_limit_expired (L w c e t : Nat) (h : e ≤ t) :
    check_rate_limit L w (some (c, e)) t = (true, some (1, t + w)) := by
  simp [check_rate_limit, h]

theorem rlRun_cons (L w : Nat) (s : RateKey) (t : Nat) (ts : List Nat) :
    rlRun L w s (t :: ts)
      = ((check_rate_limit L w s t).1
            :: (rlRun L w (check_rate_limit L w s t).2 ts).1,
         (rlRun L w (check_rate_limit L w s t).2 ts).2) := rfl

/-- Running `k + 1` further requests at instant `t` against a key holding
`c ≥ 1` admissions of the current window (`c + k = L`) admits the first `k`
and denies the last, leaving the counter saturated at `L`. -/
theorem rlRun_saturate (L w t : Nat) (hw : 0 < w) :
    ∀ k c, 0 < c → c + k = L →
      rlRun L w (some (c, t + w)) (List.replicate (k + 1) t)
        = (List.replicate k true ++ [false], some (L, t + w)) := by
  intro k
  induction k with
  | zero =>
      intro c hc hcl
      have hcl' : c = L := by omega
      subst hcl'
      have hlive : ¬ t + w ≤ t := by omega
      rw [List.replicate_succ, List.replicate]
      rw [rlRun_cons, check_rate_limit_live_deny _ _ _ _ _ hlive le_rfl]
      simp [rlRun]
  | succ k ih =>
      intro c hc hcl
      have hlive : ¬ t + w ≤ t := by omega
      have hclt : ¬ L ≤ c := by omega
      rw [List.replicate_succ, rlRun_cons,
        check_rate_limit_live_admit L w c (t + w) t hlive hclt]
      rw [ih (c + 1) (by omega) (by omega)]
      simp [List.replicate_succ]

/-! ### Claim theorems -/

/-- C1 (counter-evidence): the stock-bound invariant fails on the code.
Seed product 1 with stock S = 5 and issue one flash-buy of quantity −3 —
accepted, because `server.py`'s `FlashBuyRequest` puts no lower bound on
`quantity`.  `DECRBY stock −3` raises the counter to 8 and an order is
created, so the settled counter value 8 lies outside [0, S]. -/
theorem C1_negative_quantity_breaks_stock_bound :
    (flash_buy 10 60 ⟨none, [1], [(1, 5)], []⟩ 0 7 1 (-3) 100).1 = .ok 100 ∧
    getStock (flash_buy 10 60 ⟨none, [1], [(1, 5)], []⟩ 0 7 1 (-3) 100).2.stocks 1 = 8 ∧
    ¬ getStock (flash_buy 10 60 ⟨none, [1], [(1, 5)], []⟩ 0 7 1 (-3) 100).2.stocks 1 ≤ 5 := by
  refine ⟨rfl, rfl, ?_⟩
  decide

/-- C2: contract of the flash-buy reservation step (server.py 349-354).
When the pre-call counter is at least the requested quantity the decrement
succeeds and the counter settles at `pre − qty`; otherwise the call fails
out-of-stock and, the compensating increment done, the counter settles back
at `pre`. -/
theorem C2_reserve_contract (pre qty : Int) :
    (qty ≤ pre → flashDecr pre qty = (true, pre - qty)) ∧
    (pre < qty → flashDecr pre qty = (false, pre)) := by
  constructor
  · intro h
    have hnn : ¬ pre - qty < 0 := by omega
    simp [flashDecr, hnn]
  · intro h
    have hneg : pre - qty < 0 := by omega
    simp [flashDecr, hneg]

/-- Witness for C2 at concrete counters: stock 5 serves quantity 3 leaving
2; stock 2 refuses quantity 5 and settles back at 2. -/
theorem C2_reserve_contract_witness :
    flashDecr 5 3 = (true, 2) ∧ flashDecr 2 5 = (false, 2) := by
  constructor
  · have h := (C2_reserve_contract 5 3).1 (by decide)
    simpa using h
  · have h := (C2_reserve_contract 2 5).2 (by decide)
    simpa using h

/-- C3 (counter-evidence): `server.py`'s purchase path does not validate the
quantity.  Its `FlashBuyRequest` (lines 91-93) accepts every integer — only
`server_enhanced.py`'s request model (lines 208-210) enforces 1 ≤ q ≤ 10,
and no purchase endpoint uses it.  A flash-buy of quantity 0 against stock 5
is accepted and creates an order with quantity 0. -/
theorem C3_zero_quantity_accepted :
    flashBuyQtyValid 0 = true ∧
    flashBuyQtyValidEnhanced 0 = false ∧
    (flash_buy 10 60 ⟨none, [1], [(1, 5)], []⟩ 0 7 1 0 100).1 = .ok 100 ∧
    (flash_buy 10 60 ⟨none, [1], [(1, 5)], []⟩ 0 7 1 0 100).2.orders.map
        OrderRec.quantity = [0] := by
  exact ⟨rfl, rfl, rfl, rfl⟩

/-- C6 (counter-evidence): `check_rate_limit` runs `EXPIRE key window` on
every admitted request, not only the first of a window.  With window 60, a
first request at t = 0 sets the expiry to 60, and a second admitted request
at t = 10 resets it to 70 — the window closes 60 seconds after the *last*
admitted request, not after the first. -/
theorem C6_expiry_reset_by_second_increment :
    check_rate_limit 10 60 none 0 = (true, some (1, 60)) ∧
    check_rate_limit 10 60 (some (1, 60)) 10 = (true, some (2, 70)) ∧
    ¬ (check_rate_limit 10 60 (some (1, 60)) 10).2 = some (2, 60) := by
  refine ⟨rfl, rfl, ?_⟩
  decide

/-- C7: fixed-window admission count.  With a positive limit L and a
positive window w, L + 1 requests issued inside one window (the window
opened by the first of them) get exactly L admissions followed by one
denial, the key holding count L; and once the key's expiry has elapsed the
counter is gone — the next request is admitted afresh with count 1. -/
theorem C7_admit_exactly_limit (L w t : Nat) (hL : 0 < L) (hw : 0 < w) :
    (rlRun L w none (List.replicate (L + 1) t)).1
        = List.replicate L true ++ [false] ∧
    (rlRun L w none (List.replicate (L + 1) t)).2 = some (L, t + w) ∧
    check_rate_limit L w (some (L, t + w)) (t + w)
        = (true, some (1, t + w + w)) := by
  obtain ⟨L', rfl⟩ : ∃ L', L = L' + 1 := ⟨L - 1, by omega⟩
  have hrun := rlRun_saturate (L' + 1) w t hw L' 1 (by omega) (by omega)
  have hfirst : rlRun (L' + 1) w none (List.replicate (L' + 1 + 1) t)
      = (true :: (List.replicate L' true ++ [false]), some (L' + 1, t + w)) := by
    rw [List.replicate_succ, rlRun_cons, check_rate_limit_fresh]
    rw [hrun]
  refine ⟨?_, ?_, ?_⟩
  · rw [hfirst]
    simp [List.replicate_succ]
  · rw [hfirst]
  · exact check_rate_limit_expired _ _ _ _ _ le_rfl

/-- Witness for C7 at limit 2, window 60: three requests at t = 0 give
admit, admit, deny; at t = 60 the key has expired and the request is
admitted with a fresh count of 1. -/
theorem C7_admit_exactly_limit_witness :
    (rlRun 2 60 none [0, 0, 0]).1 = [true, true, false] ∧
    check_rate_limit 2 60 (rlRun 2 60 none [0, 0, 0]).2 60
      = (true, some (1, 120)) := by
  have h := C7_admit_exactly_limit 2 60 0 (by decide) (by decide)
  refine ⟨?_, ?_⟩
  · have h1 := h.1
    simpa [List.replicate] using h1
  · have h2 := h.2.1
    have h3 := h.2.2
    have : (rlRun 2 60 none [0, 0, 0]).2 = some (2, 60) := by
      simpa [List.replicate] using h2
    rw [this]
    simpa using h3

/-- C8 (counter-evidence): `process_order_task` updates by id only, with no
status guard, so a redelivered confirmation write moves an already
`cancelled` order to `confirmed` — `cancelled` is not terminal in the code.
Concretely: order 5 is cancelled, its queued confirmation task then runs,
and the order's status becomes `confirmed`. -/
theorem C8_confirm_overwrites_cancelled :
    (process_order_task
        ⟨none, [1], [(1, 5)],
          [⟨5, 7, 1, 2, .cancelled, 0, 0, some 0⟩]⟩ 5 9).orders.map
        OrderRec.status = [.confirmed] := by
  rfl

/-- C4: the four failure cases of `cancel_order`
(additional_endpoints.py 102-161), in the code's check order — NotFound when
no order has the id, Forbidden when the requester is not the owner,
InvalidState when the (owned) order is not pending, WindowExpired when the
(owned, pending) order is older than 300 seconds — and each failure returns
with the backend state untouched. -/
theorem C4_cancel_failure_cases (st : SrvState) (oid r now : Nat) :
    (st.orders.find? (fun q => q.id == oid) = none →
        cancel_order st oid r now = (.error .notFound, st)) ∧
    (∀ o, st.orders.find? (fun q => q.id == oid) = some o →
        (o.user_id ≠ r → cancel_order st oid r now = (.error .forbidden, st)) ∧
        (o.user_id = r → o.status ≠ .pending →
            cancel_order st oid r now = (.error .invalidState, st)) ∧
        (o.user_id = r → o.status = .pending → o.created_at + 300 < now →
            cancel_order st oid r now = (.error .windowExpired, st))) := by
  constructor
  · intro h
    simp [cancel_order, h]
  · intro o h
    refine ⟨?_, ?_, ?_⟩
    · intro hne
      have hb : (o.user_id == r) = false := by simpa using hne
      simp [cancel_order, h, hb]
    · intro he hs
      have h1 : (o.user_id == r) = true := by simpa using he
      have h2 : (o.status == Status.pending) = false := by
        simpa using hs
      simp [cancel_order, h, h1, h2]
    · intro he hs hw
      have h1 : (o.user_id == r) = true := by simpa using he
      have h2 : (o.status == Status.pending) = true := by simpa using hs
      simp [cancel_order, h, h1, h2, hw]

/-- Witness for C4: cancelling against an empty order store yields NotFound
and leaves the state unchanged; cancelling another user's order yields
Forbidden; a confirmed order yields InvalidState; a pending order older
than 300 seconds yields WindowExpired. -/
theorem C4_cancel_failure_cases_witness :
    cancel_order ⟨none, [1], [(1, 5)], []⟩ 5 7 0
      = (.error .notFound, ⟨none, [1], [(1, 5)], []⟩) ∧
    cancel_order ⟨none, [1], [(1, 5)], [⟨5, 8, 1, 2, .pending, 0, 0, none⟩]⟩ 5 7 0
      = (.error .forbidden, ⟨none, [1], [(1, 5)], [⟨5, 8, 1, 2, .pending, 0, 0, none⟩]⟩) ∧
    cancel_order ⟨none, [1], [(1, 5)], [⟨5, 7, 1, 2, .confirmed, 0, 0, none⟩]⟩ 5 7 0
      = (.error .invalidState, ⟨none, [1], [(1, 5)], [⟨5, 7, 1, 2, .confirmed, 0, 0, none⟩]⟩) ∧
    cancel_order ⟨none, [1], [(1, 5)], [⟨5, 7, 1, 2, .pending, 0, 0, none⟩]⟩ 5 7 301
      = (.error .windowExpired, ⟨none, [1], [(1, 5)], [⟨5, 7, 1, 2, .pending, 0, 0, none⟩]⟩) := by
  refine ⟨?_, ?_, ?_, ?_⟩
  · exact (C4_cancel_failure_cases ⟨none, [1], [(1, 5)], []⟩ 5 7 0).1 rfl
  · exact ((C4_cancel_failure_cases
      ⟨none, [1], [(1, 5)], [⟨5, 8, 1, 2, .pending, 0, 0, none⟩]⟩ 5 7 0).2
      ⟨5, 8, 1, 2, .pending, 0, 0, none⟩ rfl).1 (by decide)
  · exact (((C4_cancel_failure_cases
      ⟨none, [1], [(1, 5)], [⟨5, 7, 1, 2, .confirmed, 0, 0, none⟩]⟩ 5 7 0).2
      ⟨5, 7, 1, 2, .confirmed, 0, 0, none⟩ rfl).2).1 rfl (by decide)
  · exact (((C4_cancel_failure_cases
      ⟨none, [1], [(1, 5)], [⟨5, 7, 1, 2, .pending, 0, 0, none⟩]⟩ 5 7 301).2
      ⟨5, 7, 1, 2, .pending, 0, 0, none⟩ rfl).2).2 rfl rfl (by decide)

/-- C5: cancelling a pending order you own within the 300-second window
succeeds, returns the reserved quantity as the refund, adds exactly that
quantity back onto the product's stock counter, and moves the order to
`cancelled`; a second cancel of the same order — at any later time — fails
with InvalidState. -/
theorem C5_cancel_refund_then_invalid (st : SrvState) (oid r now now2 : Nat)
    (o : OrderRec)
    (hfind : st.orders.find? (fun q => q.id == oid) = some o)
    (hown : o.user_id = r) (hpend : o.status = .pending)
    (hwin : ¬ o.created_at + 300 < now) :
    (cancel_order st oid r now).1 = .ok o.quantity ∧
    getStock (cancel_order st oid r now).2.stocks o.product_id
      = getStock st.stocks o.product_id + o.quantity ∧
    ((cancel_order st oid r now).2.orders.find? (fun q => q.id == oid)).map
        OrderRec.status = some .cancelled ∧
    (cancel_order (cancel_order st oid r now).2 oid r now2).1
      = .error .invalidState := by
  have h1 : (o.user_id == r) = true := by simpa using hown
  have h2 : (o.status == Status.pending) = true := by simpa using hpend
  have hpred : (o.id == oid) = true := by
    have h := List.find?_some hfind
    simpa using h
  have hco : cancel_order st oid r now =
      (.ok o.quantity,
       { st with
          stocks := setStock st.stocks o.product_id
            (getStock st.stocks o.product_id + o.quantity),
          orders := st.orders.map (fun p =>
            if p.id == oid then
              { p with status := .cancelled, updated_at := now,
                       cancelled_at := some now }
            else p) }) := by
    simp [cancel_order, hfind, h1, h2, hwin]
  have hfid : ∀ p : OrderRec,
      ((fun p => if p.id == oid then
          { p with status := Status.cancelled, updated_at := now,
                   cancelled_at := some now }
        else p) p).id = p.id := by
    intro p
    by_cases hp : (p.id == oid) = true <;> simp [hp]
  have hfo : (if (o.id == oid) = true then
        { o with status := Status.cancelled, updated_at := now,
                 cancelled_at := some now }
      else o)
      = { o with status := Status.cancelled, updated_at := now,
                 cancelled_at := some now } := by
    rw [if_pos hpred]
  have hfind2 : (cancel_order st oid r now).2.orders.find?
      (fun q => q.id == oid) = some
        { o with status := Status.cancelled, updated_at := now,
                 cancelled_at := some now } := by
    rw [hco]
    simp only [find?_map_of_id_eq _ _ _ hfid, hfind, Option.map_some']
    rw [hfo]
  refine ⟨by rw [hco], ?_, ?_, ?_⟩
  · rw [hco]
    exact getStock_setStock _ _ _
  · simp [hfind2]
  · have hcp : (Status.cancelled == Status.pending) = false := by decide
    have hsecond : cancel_order (cancel_order st oid r now).2 oid r now2
        = (.error .invalidState, (cancel_order st oid r now).2) := by
      generalize (cancel_order st oid r now).2 = st2 at hfind2
      simp [cancel_order, hfind2, h1, hcp]
    rw [hsecond]

/-- C9: the confirmation step is idempotent.  Re-running
`process_order_task` for the same order changes nothing (the two writes are
literally equal at a common invocation time), the targeted order ends in
`confirmed`, a redelivered invocation at any later time changes no order's
status (a no-op on the state machine, not an error — the task never
raises), and the server_enhanced variant on (status, can_cancel) is
idempotent as well. -/
theorem C9_confirm_idempotent (st : SrvState) (oid now now2 : Nat)
    (p : Status × Bool) :
    process_order_task (process_order_task st oid now) oid now
        = process_order_task st oid now ∧
    ((process_order_task st oid now).orders.find? (fun q => q.id == oid)).map
        OrderRec.status
      = (st.orders.find? (fun q => q.id == oid)).map
          (fun _ => Status.confirmed) ∧
    (process_order_task (process_order_task st oid now) oid now2).orders.map
        OrderRec.status
      = (process_order_task st oid now).orders.map OrderRec.status ∧
    process_order_enhanced (process_order_enhanced p)
      = process_order_enhanced p := by
  have hid : ∀ q : OrderRec,
      ((fun q => if q.id == oid then
          { q with status := Status.confirmed, updated_at := now }
        else q) q).id = q.id := by
    intro q
    by_cases hq : (q.id == oid) = true <;> simp [hq]
  refine ⟨?_, ?_, ?_, rfl⟩
  · simp only [process_order_task]
    congr 1
    rw [List.map_map]
    refine List.map_congr_left ?_
    intro a _
    by_cases ha : (a.id == oid) = true <;> simp [Function.comp, ha]
  · rw [process_order_task, find?_map_of_id_eq _ _ _ hid]
    cases hfind : st.orders.find? (fun q => q.id == oid) with
    | none => rfl
    | some o =>
        have ho : o.id = oid := by
          have h := List.find?_some hfind
          simpa using h
        simp [ho]
  · simp only [process_order_task, List.map_map]
    refine List.map_congr_left ?_
    intro a _
    by_cases ha : (a.id == oid) = true <;> simp [Function.comp, ha]

/-- Witness for C5: order 5 (owner 7, quantity 2, created at t = 0, stock
counter at 5) cancelled at t = 100 refunds 2, leaves the counter at 7 and
the order `cancelled`; a second cancel at t = 400 yields InvalidState. -/
theorem C5_cancel_refund_then_invalid_witness :
    (cancel_order ⟨none, [1], [(1, 5)],
        [⟨5, 7, 1, 2, .pending, 0, 0, none⟩]⟩ 5 7 100).1 = .ok 2 ∧
    getStock (cancel_order ⟨none, [1], [(1, 5)],
        [⟨5, 7, 1, 2, .pending, 0, 0, none⟩]⟩ 5 7 100).2.stocks 1 = 7 ∧
    (cancel_order (cancel_order ⟨none, [1], [(1, 5)],
        [⟨5, 7, 1, 2, .pending, 0, 0, none⟩]⟩ 5 7 100).2 5 7 400).1
      = .error .invalidState := by
  have h := C5_cancel_refund_then_invalid
    ⟨none, [1], [(1, 5)], [⟨5, 7, 1, 2, .pending, 0, 0, none⟩]⟩ 5 7 100 400
    ⟨5, 7, 1, 2, .pending, 0, 0, none⟩ rfl rfl rfl (by decide)
  exact ⟨h.1, by simpa using h.2.1, h.2.2.2⟩

/-- C10: no order on failure.  Every failing flash-buy (rate-limited,
unknown product, or out of stock) leaves the `orders` collection exactly as
it was; a request rejected as rate-limited or for an unknown product leaves
every stock counter untouched; and a successful flash-buy implies the rate
limiter admitted the request, the product lookup succeeded and the
decrement left a non-negative counter — the pending order being appended
only then. -/
theorem C10_order_only_after_all_checks (limit window : Nat) (st : SrvState)
    (now userId pid : Nat) (qty : Int) (oid : Nat) :
    (∀ e, (flash_buy limit window st now userId pid qty oid).1 = .error e →
        (flash_buy limit window st now userId pid qty oid).2.orders
          = st.orders) ∧
    (∀ e, e = BuyErr.rateLimited ∨ e = BuyErr.productNotFound →
        (flash_buy limit window st now userId pid qty oid).1 = .error e →
        (flash_buy limit window st now userId pid qty oid).2.stocks
          = st.stocks) ∧
    (∀ n, (flash_buy limit window st now userId pid qty oid).1 = .ok n →
        (check_rate_limit limit window st.rate now).1 = true ∧
        st.catalog.contains pid = true ∧
        qty ≤ getStock st.stocks pid ∧
        (flash_buy limit window st now userId pid qty oid).2.orders
          = st.orders ++
              [⟨oid, userId, pid, qty, .pending, now, now, none⟩]) := by
  by_cases h1 : (check_rate_limit limit window st.rate now).1 = false
  · refine ⟨?_, ?_, ?_⟩
    · intro e _
      simp [flash_buy, h1]
    · intro e _ _
      simp [flash_buy, h1]
    · intro n hn
      rw [flash_buy] at hn
      simp [h1] at hn
  · by_cases h2 : pid ∈ st.catalog
    · by_cases h3 : getStock st.stocks pid - qty < 0
      · refine ⟨?_, ?_, ?_⟩
        · intro e _
          simp [flash_buy, h1, h2, flashDecr, h3]
        · intro e he hact
          rw [flash_buy] at hact
          simp [h1, h2, flashDecr, h3] at hact
          rcases he with rfl | rfl <;> simp_all
        · intro n hn
          rw [flash_buy] at hn
          simp [h1, h2, flashDecr, h3] at hn
      · refine ⟨?_, ?_, ?_⟩
        · intro e he
          rw [flash_buy] at he
          simp [h1, h2, flashDecr, h3] at he
        · intro e _ he
          rw [flash_buy] at he
          simp [h1, h2, flashDecr, h3] at he
        · intro n _
          refine ⟨by simpa using h1, by simpa using h2, by omega, ?_⟩
          simp [flash_buy, h1, h2, flashDecr, h3]
    · refine ⟨?_, ?_, ?_⟩
      · intro e _
        simp [flash_buy, h1, h2]
      · intro e _ _
        simp [flash_buy, h1, h2]
      · intro n hn
        rw [flash_buy] at hn
        simp [h1, h2] at hn

/-- Witness for C10: against an empty catalog the flash-buy fails with
product-not-found and both the orders collection and the stock keys are
exactly as before. -/
theorem C10_order_only_after_all_checks_witness :
    (flash_buy 10 60 ⟨none, [], [(1, 5)], []⟩ 0 7 1 2 100).1
      = .error .productNotFound ∧
    (flash_buy 10 60 ⟨none, [], [(1, 5)], []⟩ 0 7 1 2 100).2.orders = [] ∧
    (flash_buy 10 60 ⟨none, [], [(1, 5)], []⟩ 0 7 1 2 100).2.stocks
      = [(1, 5)] := by
  have h := C10_order_only_after_all_checks 10 60 ⟨none, [], [(1, 5)], []⟩
    0 7 1 2 100
  exact ⟨rfl, h.1 .productNotFound rfl, h.2.1 .productNotFound (Or.inr rfl) rfl⟩

end ScaleMart
